import Mathlib

/-!
Verification development for the bibliomania repository.

The repository builds a citation graph over an OpenAlex snapshot and serves
it enriched with semantic-similarity edges.  This file gives a shallow
embedding of the parts the properties below are about:

* smart_ingest.py : the parallel shard worker (process_single_file), the
  single-writer insertion loop of main (INSERT OR IGNORE into works), and
  the temp-file cleanup of the worker.
* semantic_engine.py : the SemanticEngine with lazy model loading
  (load_model), the embedding cache (get_embeddings over the vector_cache
  table), and the similarity query (calculate_similarity).
* main.py : the /graph/expand endpoint (expand_graph), which merges stored
  citation edges with similarity results into one node/edge view.

Modelling conventions.  Database tables are association lists in row order;
the works PRIMARY KEY is enforced by the insert operations exactly as the
SQL statements of the source do.  The opaque SPECTER2 encoder is a
parameter encode : String -> List Q (text to fixed-length vector), and the
similarity score delegated to the DuckDB function array_cosine_similarity
is a parameter score, both external collaborators per the design.  Python
exceptions are Except values; environment failure modes (model load
failure, forward-pass failure) are Boolean fields of an Env record.
Vectors are lists of rationals.  Logging is not modelled.  NULL text
fields inside the semantic block are modelled as empty strings.
-/

namespace Bibliomania

/-! ### Generic association-list operations (dict / keyed table lookups) -/

/-- First-match lookup in an association list keyed by strings.  Models a
Python dict access and a SELECT ... WHERE key = ? on a keyed table. -/
def lookup {α : Type} : List (String × α) → String → Option α
  | [], _ => none
  | kv :: t, k => if kv.1 = k then some kv.2 else lookup t k

/-- INSERT OR REPLACE into a table keyed by the first component: the row
with the same key is replaced in place, otherwise the row is appended. -/
def insertOrReplace {α : Type} : List (String × α) → String × α → List (String × α)
  | [], kv => [kv]
  | x :: t, kv => if x.1 = kv.1 then kv :: t else x :: insertOrReplace t kv

/-! ### smart_ingest.py : data model and worker -/

/-- TARGET_CONCEPT_IDS from smart_ingest.py. -/
def TARGET_CONCEPT_IDS : List String :=
  ["C15151743", "C69562835", "C190743605", "C28225019", "C152662350"]

/-- One row of the works table (schema of init_db in smart_ingest.py /
database.py): id is the PRIMARY KEY, the remaining fields are nullable;
the abstract is stored as a JSON string. -/
structure WorksRow where
  id : String
  doi : Option String
  title : Option String
  publication_year : Option Int
  cited_by_count : Option Int
  first_author : Option String
  venue : Option String
  abstract_inverted_index : Option String
deriving DecidableEq, Repr

/-- INSERT OR IGNORE INTO works: a row whose id is already present leaves
the table untouched, otherwise the row is appended. -/
def insertOrIgnoreWork (t : List WorksRow) (r : WorksRow) : List WorksRow :=
  if t.any (fun x => x.id == r.id) then t else t ++ [r]

/-- The Store Writer step of smart_ingest.main: executemany of
INSERT OR IGNORE over one batch of work tuples, in batch order. -/
def writeWorks (t : List WorksRow) (batch : List WorksRow) : List WorksRow :=
  batch.foldl insertOrIgnoreWork t

/-- One raw snapshot record, as consumed by process_single_file after
json.loads.  The nested authorships / primary_location extraction of
safe_get_author and safe_get_venue (a try/except returning None on any
missing level) is modelled as the already-extracted optional field.
concepts holds the concept id URLs, referenced_works the reference URLs. -/
structure RawWork where
  id : String
  doi : Option String
  title : Option String
  publication_year : Option Int
  cited_by_count : Option Int
  first_author : Option String
  venue : Option String
  abstract_inverted_index : Option String
  concepts : List String
  referenced_works : List String
deriving DecidableEq, Repr

/-- One line of a decompressed shard: either a record that json.loads
parses, or a malformed line whose parse raises (skipped by the inner
try/except of process_single_file). -/
inductive LineItem where
  | good (w : RawWork)
  | malformed
deriving DecidableEq, Repr

/-- One remote shard as seen by the worker.  fetchOk is whether
s3.download_file succeeds; items are the line events the gzip stream
yields before either ending or raising; streamError records whether the
gzip iteration raises a decompression error after yielding items;
fetchLeavesPartial is whether a failed download leaves a partial local
file behind. -/
structure Shard where
  fetchOk : Bool
  items : List LineItem
  streamError : Bool
  fetchLeavesPartial : Bool
deriving DecidableEq, Repr

/-- Splitting a character list on the slash character, the list-level
model of str.split('/'). -/
def splitSlashAux : List Char → List Char → List String
  | [], acc => [String.mk acc.reverse]
  | c :: t, acc =>
    if c = '/' then String.mk acc.reverse :: splitSlashAux t []
    else splitSlashAux t (c :: acc)

/-- work_id = work['id'].split('/')[-1] : the last slash-separated
component of an OpenAlex URL id. -/
def lastComponent (s : String) : String :=
  (splitSlashAux s.data []).getLastD s

/-- The membership filter of process_single_file: the set of short concept
ids of the record meets TARGET_CONCEPT_IDS (not work_concepts.isdisjoint
(target_set)). -/
def matchesTarget (w : RawWork) : Bool :=
  w.concepts.any (fun c => TARGET_CONCEPT_IDS.contains (lastComponent c))

/-- The 8-tuple appended to found_works for a matching record. -/
def tupleOf (w : RawWork) : WorksRow :=
  { id := lastComponent w.id
    doi := w.doi
    title := w.title
    publication_year := w.publication_year
    cited_by_count := w.cited_by_count
    first_author := w.first_author
    venue := w.venue
    abstract_inverted_index := w.abstract_inverted_index }

/-- The citation tuples appended to found_citations for a matching
record: (work_id, ref.split('/')[-1]) for each referenced work. -/
def citationsOf (w : RawWork) : List (String × String) :=
  w.referenced_works.map (fun ref => (lastComponent w.id, lastComponent ref))

/-- The per-line loop of process_single_file over the decompressed
stream: malformed lines are skipped by the inner try/except; matching
records contribute their work tuple and citation tuples in order. -/
def processItems : List LineItem → List WorksRow × List (String × String)
  | [] => ([], [])
  | .malformed :: rest => processItems rest
  | .good w :: rest =>
    let r := processItems rest
    if matchesTarget w then (tupleOf w :: r.1, citationsOf w ++ r.2) else r

/-- process_single_file of smart_ingest.py: the outer try/except swallows
the download failure and any stream error, so the worker always returns
the (work, citation) batches collected so far — empty when the download
itself failed. -/
def process_single_file (sh : Shard) : List WorksRow × List (String × String) :=
  if sh.fetchOk then processItems sh.items else ([], [])

/-- The fan-out of smart_ingest.main: every submitted shard reference is
processed and yields exactly one result batch (imap_unordered yields one
result per input; order is irrelevant to the claims below). -/
def run_pipeline (shards : List Shard) : List (List WorksRow × List (String × String)) :=
  shards.map process_single_file

/-- Whether the temporary local file temp_chunk_(pid).gz exists right
after the try body of process_single_file: a successful download created
it; a failed download may or may not have left a partial file. -/
def tempExistsAfterBody (sh : Shard) : Bool :=
  if sh.fetchOk then true else sh.fetchLeavesPartial

/-- The finally clause of process_single_file: if the temp file exists,
os.remove it. -/
def cleanupTemp (e : Bool) : Bool :=
  if e then false else e

/-- process_single_file together with the fate of its temporary local
file: every exit path (success, download failure, stream error) runs the
finally clause before the function returns its collected batches. -/
def process_single_file_full (sh : Shard) : (List WorksRow × List (String × String)) × Bool :=
  (process_single_file sh, cleanupTemp (tempExistsAfterBody sh))

/-! ### semantic_engine.py : engine state, cache, similarity -/

/-- Failure modes of the environment around the SemanticEngine: whether
loading the SPECTER2 model raises, and whether the tokenizer/forward pass
over a missing sub-batch raises. -/
structure Env where
  load_fails : Bool
  encode_fails : Bool
deriving DecidableEq, Repr

/-- Exceptions escaping the SemanticEngine. -/
inductive EngErr where
  | loadError
  | encodeError
deriving DecidableEq, Repr

/-- The mutable state of the SemanticEngine singleton plus the persistent
vector_cache table (paper_id PRIMARY KEY, embedding FLOAT[]).
encoderCalls counts forward passes of the model, i.e. executions of
self.model(**inputs); it instruments recomputation. -/
structure EngineState where
  is_loaded : Bool
  cache : List (String × List ℚ)
  encoderCalls : Nat
deriving DecidableEq, Repr

/-- SemanticEngine.load_model: returns at once when already loaded,
otherwise attempts the load and either raises or marks the engine
loaded. -/
def load_model (env : Env) (s : EngineState) : Except EngErr EngineState :=
  if s.is_loaded then .ok s
  else if env.load_fails then .error .loadError
  else .ok { s with is_loaded := true }

/-- One paper as passed to get_embeddings: id, title, abstract. -/
structure EPaper where
  id : String
  title : String
  abstract : String
deriving DecidableEq, Repr

/-- The encoder input text of a paper: title + ' ' + abstract. -/
def textOf (p : EPaper) : String :=
  p.title ++ " " ++ p.abstract

/-- SELECT paper_id, embedding FROM vector_cache WHERE paper_id IN (ids):
the cache rows whose key occurs among the requested paper ids. -/
def cachedFor (papers : List EPaper) : List (String × List ℚ) → List (String × List ℚ)
  | [] => []
  | kv :: t =>
    if papers.any (fun p => p.id == kv.1) then kv :: cachedFor papers t
    else cachedFor papers t

/-- missing_papers = [p for p in papers if p['id'] not in embeddings]. -/
def missingOf (embs : List (String × List ℚ)) : List EPaper → List EPaper
  | [] => []
  | p :: t =>
    if (lookup embs p.id).isNone then p :: missingOf embs t else missingOf embs t

/-- SemanticEngine.get_embeddings: loads the model first, returns the
empty mapping for an empty request, reads the cached sub-batch from
vector_cache, and encodes the missing sub-batch in one batched forward
pass, persisting each new vector with INSERT OR REPLACE before
returning.  A load failure or a forward-pass failure escapes the whole
call. -/
def get_embeddings (env : Env) (encode : String → List ℚ) (s : EngineState)
    (papers : List EPaper) : Except EngErr (EngineState × List (String × List ℚ)) :=
  match load_model env s with
  | .error e => .error e
  | .ok s₁ =>
    if papers.isEmpty then .ok (s₁, [])
    else
      let embs := cachedFor papers s₁.cache
      let missing := missingOf embs papers
      if missing.isEmpty then .ok (s₁, embs)
      else if env.encode_fails then .error .encodeError
      else
        let newEmbs := missing.map (fun p => (p.id, encode (textOf p)))
        .ok ({ s₁ with
                cache := newEmbs.foldl insertOrReplace s₁.cache
                encoderCalls := s₁.encoderCalls + 1 },
             newEmbs.foldl insertOrReplace embs)

/-- The scored candidate rows of calculate_similarity: every vector_cache
row other than the seed, paired with its score against the seed vector
(SELECT paper_id, array_cosine_similarity(embedding, seed) ... WHERE
paper_id != seed). -/
def othersScored (score : List ℚ → List ℚ → ℚ) (sv : List ℚ) (seed : String) :
    List (String × List ℚ) → List (String × ℚ)
  | [] => []
  | kv :: t =>
    if kv.1 = seed then othersScored score sv seed t
    else (kv.1, score kv.2 sv) :: othersScored score sv seed t

/-- Descending insertion by score, the ordering step of ORDER BY score
DESC. -/
def insertDesc (a : String × ℚ) : List (String × ℚ) → List (String × ℚ)
  | [] => [a]
  | b :: t => if b.2 ≤ a.2 then a :: b :: t else b :: insertDesc a t

/-- ORDER BY score DESC, modelled as an insertion sort by descending
score (the engine guarantees a descending permutation; tie order is
unspecified in SQL). -/
def sortDesc : List (String × ℚ) → List (String × ℚ)
  | [] => []
  | a :: t => insertDesc a (sortDesc t)

/-- SemanticEngine.calculate_similarity: an absent seed vector yields the
empty result (after a logged warning); otherwise every other cached row
is scored against the seed vector, ordered by descending score, and cut
to the limit.  The method never touches the model or the encoder. -/
def calculate_similarity (score : List ℚ → List ℚ → ℚ)
    (cache : List (String × List ℚ)) (seed : String) (lim : Nat) :
    List (String × ℚ) :=
  match lookup cache seed with
  | none => []
  | some sv => (sortDesc (othersScored score sv seed cache)).take lim

/-! ### main.py : /graph/expand -/

/-- One node of the GraphResponse (the Paper model of main.py). -/
structure Node where
  id : String
  title : Option String
  year : Option Int
  first_author : Option String
  venue : Option String
  cited_by_count : Option Int
deriving DecidableEq, Repr

/-- One edge of the GraphResponse: citation edges are plain
source/target dicts, similarity edges additionally carry
type = "similarity". -/
structure GEdge where
  source : String
  target : String
  type : Option String
deriving DecidableEq, Repr

/-- The persistent store seen by main.py: the works table and the
citations table (source_id, target_id). -/
structure DB where
  works : List WorksRow
  citations : List (String × String)
deriving Repr

/-- First row of the works table with the given id. -/
def findRow : List WorksRow → String → Option WorksRow
  | [], _ => none
  | w :: t, pid => if w.id = pid then some w else findRow t pid

/-- SELECT ... FROM works WHERE id = ? ... .fetchone(). -/
def findWork (db : DB) (pid : String) : Option WorksRow :=
  findRow db.works pid

/-- The node dict built from one works row. -/
def nodeOf (r : WorksRow) : Node :=
  { id := r.id
    title := r.title
    year := r.publication_year
    first_author := r.first_author
    venue := r.venue
    cited_by_count := r.cited_by_count }

/-- The central_paper dict as passed to get_embeddings: id and title from
the central row, the abstract stringified (str of None is the literal
string, irrelevant to the properties below; a NULL title is modelled as
the empty string). -/
def centralEPaper (w : WorksRow) : EPaper :=
  { id := w.id
    title := w.title.getD ""
    abstract := w.abstract_inverted_index.getD "None" }

/-- References of the focal paper: citations rows with source_id =
paper_id, joined against works on the target, first 20 join rows. -/
def refsRows (db : DB) (pid : String) : List WorksRow :=
  (((db.citations.filter (fun c => c.1 == pid)).filterMap
    (fun c => findWork db c.2)).take 20)

/-- Citing papers of the focal paper: citations rows with target_id =
paper_id, joined against works on the source, first 20 join rows. -/
def citedRows (db : DB) (pid : String) : List WorksRow :=
  (((db.citations.filter (fun c => c.2 == pid)).filterMap
    (fun c => findWork db c.1)).take 20)

/-- if pid not in nodes: nodes[pid] = node. -/
def addNode (ns : List (String × Node)) (k : String) (n : Node) : List (String × Node) :=
  if (lookup ns k).isSome then ns else ns ++ [(k, n)]

/-- One reference row: the target node is added when new and the outgoing
citation edge is appended unconditionally. -/
def refsStep (pid : String) (st : List (String × Node) × List GEdge) (r : WorksRow) :
    List (String × Node) × List GEdge :=
  (addNode st.1 r.id (nodeOf r), st.2 ++ [⟨pid, r.id, none⟩])

/-- One citing row: the source node is added when new and the incoming
citation edge is appended unconditionally. -/
def citedStep (pid : String) (st : List (String × Node) × List GEdge) (r : WorksRow) :
    List (String × Node) × List GEdge :=
  (addNode st.1 r.id (nodeOf r), st.2 ++ [⟨r.id, pid, none⟩])

/-- The citation-derived portion of expand_graph: the central node, then
the reference rows, then the citing rows. -/
def citationPart (db : DB) (pid : String) (w : WorksRow) :
    List (String × Node) × List GEdge :=
  let st0 := ([(pid, nodeOf w)], ([] : List GEdge))
  let st1 := (refsRows db pid).foldl (refsStep pid) st0
  (citedRows db pid).foldl (citedStep pid) st1

/-- One similarity result inside expand_graph: only when the id is not
yet a node is its works row fetched, and only when that row exists are
the node and the similarity-tagged edge added; otherwise the result is
dropped silently. -/
def simStep (db : DB) (pid : String) (st : List (String × Node) × List GEdge)
    (sim : String × ℚ) : List (String × Node) × List GEdge :=
  if (lookup st.1 sim.1).isSome then st
  else
    match findWork db sim.1 with
    | none => st
    | some r => (st.1 ++ [(sim.1, nodeOf r)], st.2 ++ [⟨pid, sim.1, some "similarity"⟩])

/-- expand_graph of main.py: 404 when the focal paper is absent;
otherwise the citation part is built, then the semantic block runs under
try/except — get_embeddings for the central paper followed by
calculate_similarity with limit 5 — and a failure of the semantic
subsystem leaves the citation-only graph to be returned. -/
def expand_graph (env : Env) (encode : String → List ℚ)
    (score : List ℚ → List ℚ → ℚ) (s : EngineState) (db : DB) (pid : String) :
    Except Unit (List Node × List GEdge) :=
  match findWork db pid with
  | none => .error ()
  | some w =>
    let st := citationPart db pid w
    match get_embeddings env encode s [centralEPaper w] with
    | .error _ => .ok (st.1.map (fun kn => kn.2), st.2)
    | .ok (s', _) =>
      let sims := calculate_similarity score s'.cache pid 5
      let st' := sims.foldl (simStep db pid) st
      .ok (st'.1.map (fun kn => kn.2), st'.2)

/-- The similarity-result ids of one expand_graph call: empty when the
semantic block raised, otherwise the ids returned by
calculate_similarity on the post-embedding cache. -/
def simIdsOf (env : Env) (encode : String → List ℚ)
    (score : List ℚ → List ℚ → ℚ) (s : EngineState) (pid : String) (w : WorksRow) :
    List String :=
  match get_embeddings env encode s [centralEPaper w] with
  | .error _ => []
  | .ok (s', _) => (calculate_similarity score s'.cache pid 5).map (fun r => r.1)

/-- Well-formedness of an intermediate node/edge state of expand_graph:
the focal id is a node, every node is keyed by its own id and backed by a
works row, and every edge endpoint is a node key. -/
def GoodState (db : DB) (pid : String) (st : List (String × Node) × List GEdge) : Prop :=
  (lookup st.1 pid).isSome = true ∧
  (∀ kn ∈ st.1, kn.2.id = kn.1 ∧ (findWork db kn.1).isSome = true) ∧
  (∀ ed ∈ st.2, (lookup st.1 ed.source).isSome = true ∧
    (lookup st.1 ed.target).isSome = true)

/-! ### Association-list lemmas -/

theorem lookup_append_of_some {α : Type} {l₁ : List (String × α)} {k : String} {v : α}
    (l₂ : List (String × α)) (h : lookup l₁ k = some v) :
    lookup (l₁ ++ l₂) k = some v := by
  induction l₁ with
  | nil => simp [lookup] at h
  | cons x t ih =>
    by_cases hx : x.1 = k
    · simp only [lookup, if_pos hx, List.cons_append] at h ⊢
      exact h
    · simp only [lookup, if_neg hx, List.cons_append] at h ⊢
      exact ih h

theorem lookup_append_of_none {α : Type} {l₁ : List (String × α)} {k : String}
    (l₂ : List (String × α)) (h : lookup l₁ k = none) :
    lookup (l₁ ++ l₂) k = lookup l₂ k := by
  induction l₁ with
  | nil => simp [lookup]
  | cons x t ih =>
    by_cases hx : x.1 = k
    · simp only [lookup, if_pos hx] at h
      exact absurd h (by simp)
    · simp only [lookup, if_neg hx, List.cons_append] at h ⊢
      exact ih h

theorem lookup_isSome_append {α : Type} {l₁ : List (String × α)} {k : String}
    (l₂ : List (String × α)) (h : (lookup l₁ k).isSome = true) :
    (lookup (l₁ ++ l₂) k).isSome = true := by
  rcases Option.isSome_iff_exists.mp h with ⟨v, hv⟩
  rw [lookup_append_of_some l₂ hv]
  rfl

theorem lookup_append_none_left {α : Type} {l₁ l₂ : List (String × α)} {k : String}
    (h : lookup (l₁ ++ l₂) k = none) : lookup l₁ k = none := by
  cases hv : lookup l₁ k with
  | none => rfl
  | some v => rw [lookup_append_of_some l₂ hv] at h; exact absurd h (by simp)

theorem lookup_append_single_self {α : Type} (l : List (String × α)) (k : String) (v : α) :
    (lookup (l ++ [(k, v)]) k).isSome = true := by
  cases hv : lookup l k with
  | none => rw [lookup_append_of_none _ hv]; simp [lookup]
  | some w => rw [lookup_append_of_some _ hv]; rfl

theorem lookup_mem {α : Type} {l : List (String × α)} {k : String} {v : α}
    (h : lookup l k = some v) : (k, v) ∈ l := by
  induction l with
  | nil => simp [lookup] at h
  | cons x t ih =>
    obtain ⟨x1, x2⟩ := x
    by_cases hx : x1 = k
    · simp only [lookup, hx, if_pos rfl] at h
      obtain ⟨hv⟩ := h
      simp [hx]
    · simp only [lookup, if_neg hx] at h
      exact List.mem_cons_of_mem _ (ih h)

theorem lookup_insertOrReplace_self {α : Type} (l : List (String × α)) (k : String) (v : α) :
    lookup (insertOrReplace l (k, v)) k = some v := by
  induction l with
  | nil => simp [insertOrReplace, lookup]
  | cons x t ih =>
    by_cases hx : x.1 = k
    · simp [insertOrReplace, hx, lookup]
    · simp only [insertOrReplace, if_neg hx, lookup]
      exact ih

/-- Invariant transport along a left fold, with membership of the step
element available to the preservation hypothesis. -/
theorem foldl_pres_mem {σ α : Type} (P : σ → Prop) (f : σ → α → σ) :
    ∀ (l : List α), (∀ st a, a ∈ l → P st → P (f st a)) →
      ∀ st, P st → P (l.foldl f st)
  | [], _, _, hst => hst
  | a :: t, h, st, hst => by
    simp only [List.foldl_cons]
    exact foldl_pres_mem P f t (fun st' b hb => h st' b (by simp [hb])) (f st a)
      (h st a (by simp) hst)

/-! ### Ingestion lemmas and claims C2, C4, C9 -/

theorem processItems_malformed (pre post : List LineItem) :
    processItems (pre ++ .malformed :: post) = processItems (pre ++ post) := by
  induction pre with
  | nil => simp [processItems]
  | cons i t ih =>
    cases i with
    | malformed => simpa [processItems] using ih
    | good w => simp [processItems, ih]

/-- C2: inserting a document with the same identifier twice through the
Store Writer of smart_ingest.main (executemany of INSERT OR IGNORE INTO
works) leaves exactly one row for that identifier, carrying the
first-seen field values; the second insert is a no-op and no error is
raised. -/
theorem works_insert_idempotent (t : List WorksRow) (d d' : WorksRow)
    (hfresh : ∀ x ∈ t, x.id ≠ d.id) (hid : d'.id = d.id) :
    writeWorks t [d, d'] = t ++ [d] ∧
    (writeWorks t [d, d']).filter (fun x => x.id == d.id) = [d] := by
  have h1 : (t.any fun x => x.id == d.id) = false := by
    simp only [List.any_eq_false, beq_iff_eq]
    exact hfresh
  have hfirst : insertOrIgnoreWork t d = t ++ [d] := by
    simp [insertOrIgnoreWork, h1]
  have h2 : ((t ++ [d]).any fun x => x.id == d'.id) = true := by
    refine List.any_eq_true.mpr ⟨d, by simp, ?_⟩
    simp [hid]
  have hw : writeWorks t [d, d'] = t ++ [d] := by
    simp only [writeWorks, List.foldl_cons, List.foldl_nil, hfirst]
    simp [insertOrIgnoreWork, h2]
  refine ⟨hw, ?_⟩
  rw [hw, List.filter_append]
  have ht : t.filter (fun x => x.id == d.id) = [] := by
    simp only [List.filter_eq_nil_iff, beq_iff_eq]
    exact hfresh
  simp [ht]

/-- Witness for C2 at a concrete store and document pair. -/
theorem works_insert_idempotent_witness :
    writeWorks [] [⟨"W1", none, some "T", none, none, none, none, none⟩,
        ⟨"W1", none, some "U", none, none, none, none, none⟩] =
      [] ++ [⟨"W1", none, some "T", none, none, none, none, none⟩] ∧
    (writeWorks [] [⟨"W1", none, some "T", none, none, none, none, none⟩,
        ⟨"W1", none, some "U", none, none, none, none, none⟩]).filter
        (fun x => x.id == WorksRow.id ⟨"W1", none, some "T", none, none, none, none, none⟩) =
      [⟨"W1", none, some "T", none, none, none, none, none⟩] :=
  works_insert_idempotent [] ⟨"W1", none, some "T", none, none, none, none, none⟩
    ⟨"W1", none, some "U", none, none, none, none, none⟩ (by simp) rfl

/-- C4 counterexample: a shard whose gzip stream yields one matching
record and then raises a decompression error makes the worker return the
records collected before the failure, not an empty pair — the claim that
a decompress failure always yields an empty pair is false on the code. -/
theorem shard_stream_error_returns_partial :
    (Shard.mk true [.good ⟨"https://openalex.org/W1", none, some "T1", none, none,
        none, none, none, ["https://openalex.org/C15151743"],
        ["https://openalex.org/W2"]⟩] true false).streamError = true ∧
    process_single_file ⟨true, [.good ⟨"https://openalex.org/W1", none, some "T1",
        none, none, none, none, none, ["https://openalex.org/C15151743"],
        ["https://openalex.org/W2"]⟩], true, false⟩ =
      ([⟨"W1", none, some "T1", none, none, none, none, none⟩], [("W1", "W2")]) ∧
    process_single_file ⟨true, [.good ⟨"https://openalex.org/W1", none, some "T1",
        none, none, none, none, none, ["https://openalex.org/C15151743"],
        ["https://openalex.org/W2"]⟩], true, false⟩ ≠ ([], []) := by
  refine ⟨rfl, by decide, by decide⟩

/-- C4 (amended): a fetch failure makes the worker return an empty pair;
a mid-stream decompression error is swallowed and the records collected
before it are returned; the pipeline yields exactly one result per
submitted shard, unaffected by a failing shard among them; and a
malformed line is skipped individually without aborting the rest of the
shard. -/
theorem worker_failure_isolation (sh : Shard) (h : sh.fetchOk = false)
    (s₁ s₂ : List Shard) (fOk se p : Bool) (pre post : List LineItem) :
    process_single_file sh = ([], []) ∧
    run_pipeline (s₁ ++ sh :: s₂) = run_pipeline s₁ ++ ([], []) :: run_pipeline s₂ ∧
    process_single_file ⟨fOk, pre ++ .malformed :: post, se, p⟩ =
      process_single_file ⟨fOk, pre ++ post, se, p⟩ ∧
    process_single_file ⟨fOk, pre, true, p⟩ = process_single_file ⟨fOk, pre, false, p⟩ := by
  have hempty : process_single_file sh = ([], []) := by
    simp [process_single_file, h]
  refine ⟨hempty, ?_, ?_, rfl⟩
  · simp [run_pipeline, hempty]
  · simp [process_single_file, processItems_malformed]

/-- Witness for C4 (amended) at concrete shards. -/
theorem worker_failure_isolation_witness :
    process_single_file ⟨false, [], false, false⟩ = ([], []) ∧
    run_pipeline ([] ++ (⟨false, [], false, false⟩ : Shard) :: []) =
      run_pipeline [] ++ ([], []) :: run_pipeline [] ∧
    process_single_file ⟨true, [] ++ .malformed :: [], false, false⟩ =
      process_single_file ⟨true, [] ++ [], false, false⟩ ∧
    process_single_file ⟨true, [], true, false⟩ =
      process_single_file ⟨true, [], false, false⟩ :=
  worker_failure_isolation ⟨false, [], false, false⟩ rfl [] [] true false false [] []

/-- C9: on every exit path of the worker (success, download failure,
stream error) the finally clause removes the temporary local file, so it
does not exist after the task returns; and the file does exist after the
body of a successful download, so the cleanup is not vacuous. -/
theorem temp_file_removed_on_all_paths :
    (∀ sh : Shard, (process_single_file_full sh).2 = false) ∧
    (∀ (items : List LineItem) (se : Bool),
      tempExistsAfterBody ⟨true, items, se, false⟩ = true) := by
  constructor
  · intro sh
    simp only [process_single_file_full, cleanupTemp]
    cases h : tempExistsAfterBody sh <;> simp
  · intro items se
    rfl

/-! ### SemanticEngine lemmas -/

theorem load_model_ok_loaded {env : Env} {s s' : EngineState}
    (h : load_model env s = .ok s') : s'.is_loaded = true := by
  unfold load_model at h
  by_cases h1 : s.is_loaded = true
  · rw [if_pos h1, Except.ok.injEq] at h
    subst h
    exact h1
  · rw [if_neg h1] at h
    by_cases h2 : env.load_fails = true
    · rw [if_pos h2] at h
      exact absurd h (by simp)
    · rw [if_neg h2, Except.ok.injEq] at h
      subst h
      rfl

theorem load_model_of_loaded {env : Env} {s : EngineState} (h : s.is_loaded = true) :
    load_model env s = .ok s := by
  simp [load_model, h]

theorem lookup_cachedFor {papers : List EPaper} {p : EPaper} (hp : p ∈ papers)
    (cache : List (String × List ℚ)) :
    lookup (cachedFor papers cache) p.id = lookup cache p.id := by
  induction cache with
  | nil => rfl
  | cons kv t ih =>
    by_cases hk : kv.1 = p.id
    · have hany : (papers.any fun q => q.id == kv.1) = true :=
        List.any_eq_true.mpr ⟨p, hp, by simp [hk]⟩
      simp only [cachedFor]
      rw [if_pos hany]
      simp [lookup, hk]
    · cases hany : (papers.any fun q => q.id == kv.1) with
      | true =>
        simp only [cachedFor]
        rw [if_pos hany]
        simp only [lookup]
        rw [if_neg hk, if_neg hk]
        exact ih
      | false =>
        simp only [cachedFor]
        rw [if_neg (by simp [hany])]
        rw [ih]
        simp only [lookup]
        rw [if_neg hk]

theorem missingOf_ne_nil {embs : List (String × List ℚ)} {papers : List EPaper}
    {p : EPaper} (hp : p ∈ papers) (h : (lookup embs p.id).isNone = true) :
    (missingOf embs papers).isEmpty = false := by
  induction papers with
  | nil => cases hp
  | cons q t ih =>
    rcases List.mem_cons.mp hp with rfl | hp'
    · simp [missingOf, h]
    · by_cases hq : (lookup embs q.id).isNone = true
      · simp [missingOf, hq]
      · simp only [missingOf]
        rw [if_neg hq]
        exact ih hp'

/-- A fully cached singleton request returns the cached row and changes
nothing: the missing sub-batch is empty, so no encoding happens. -/
theorem get_embeddings_all_cached (env : Env) (enc : String → List ℚ)
    (s : EngineState) (d : EPaper) (v : List ℚ)
    (hl : s.is_loaded = true) (hv : lookup s.cache d.id = some v) :
    get_embeddings env enc s [d] = .ok (s, cachedFor [d] s.cache) := by
  have hload : load_model env s = .ok s := load_model_of_loaded hl
  have hcf : lookup (cachedFor [d] s.cache) d.id = some v := by
    rw [lookup_cachedFor (List.mem_singleton_self d)]
    exact hv
  have hmiss : missingOf (cachedFor [d] s.cache) [d] = [] := by
    simp [missingOf, hcf]
  simp [get_embeddings, hload, hmiss]

theorem length_insertDesc (a : String × ℚ) (l : List (String × ℚ)) :
    (insertDesc a l).length = l.length + 1 := by
  induction l with
  | nil => rfl
  | cons b t ih =>
    by_cases hb : b.2 ≤ a.2
    · simp [insertDesc, hb]
    · simp [insertDesc, hb, ih]

theorem mem_insertDesc {x a : String × ℚ} {l : List (String × ℚ)} :
    x ∈ insertDesc a l ↔ x = a ∨ x ∈ l := by
  induction l with
  | nil => simp [insertDesc]
  | cons b t ih =>
    by_cases hb : b.2 ≤ a.2
    · simp only [insertDesc, if_pos hb, List.mem_cons]
    · simp only [insertDesc, if_neg hb, List.mem_cons, ih]
      tauto

theorem mem_sortDesc {x : String × ℚ} : ∀ {l : List (String × ℚ)},
    x ∈ sortDesc l ↔ x ∈ l
  | [] => Iff.rfl
  | a :: t => by
    simp only [sortDesc, mem_insertDesc, List.mem_cons, mem_sortDesc (l := t)]

theorem sorted_insertDesc (a : String × ℚ) {l : List (String × ℚ)}
    (h : l.Pairwise (fun u v => v.2 ≤ u.2)) :
    (insertDesc a l).Pairwise (fun u v => v.2 ≤ u.2) := by
  induction l with
  | nil => simp [insertDesc]
  | cons b t ih =>
    rcases List.pairwise_cons.mp h with ⟨hb, ht⟩
    by_cases hba : b.2 ≤ a.2
    · simp only [insertDesc, if_pos hba]
      refine List.pairwise_cons.mpr ⟨?_, h⟩
      intro y hy
      rcases List.mem_cons.mp hy with rfl | hyt
      · exact hba
      · exact le_trans (hb y hyt) hba
    · simp only [insertDesc, if_neg hba]
      refine List.pairwise_cons.mpr ⟨?_, ih ht⟩
      intro y hy
      rcases mem_insertDesc.mp hy with rfl | hyt
      · exact le_of_not_le hba
      · exact hb y hyt

theorem sorted_sortDesc : ∀ (l : List (String × ℚ)),
    (sortDesc l).Pairwise (fun u v => v.2 ≤ u.2)
  | [] => List.Pairwise.nil
  | a :: t => sorted_insertDesc a (sorted_sortDesc t)

theorem mem_othersScored {score : List ℚ → List ℚ → ℚ} {sv : List ℚ} {seed : String}
    {x : String × ℚ} : ∀ {cache : List (String × List ℚ)},
    x ∈ othersScored score sv seed cache →
      x.1 ≠ seed ∧ ∃ v, (x.1, v) ∈ cache ∧ x.2 = score v sv
  | [], hx => by simp [othersScored] at hx
  | kv :: t, hx => by
    by_cases hk : kv.1 = seed
    · rw [othersScored, if_pos hk] at hx
      rcases mem_othersScored hx with ⟨hne, v, hv, hs⟩
      exact ⟨hne, v, List.mem_cons_of_mem _ hv, hs⟩
    · rw [othersScored, if_neg hk] at hx
      rcases List.mem_cons.mp hx with rfl | hx'
      · exact ⟨hk, kv.2, by simp, rfl⟩
      · rcases mem_othersScored hx' with ⟨hne, v, hv, hs⟩
        exact ⟨hne, v, List.mem_cons_of_mem _ hv, hs⟩

/-! ### Claims C6, C7, C1, C8 -/

/-- C6: with the seed vector cached, calculate_similarity returns at most
limit results, none of them the seed itself, each scored against the
cached seed vector from a cached row, in descending score order. -/
theorem calculate_similarity_contract (score : List ℚ → List ℚ → ℚ)
    (cache : List (String × List ℚ)) (seed : String) (lim : Nat) (sv : List ℚ)
    (h : lookup cache seed = some sv) :
    (calculate_similarity score cache seed lim).length ≤ lim ∧
    (∀ r ∈ calculate_similarity score cache seed lim,
      r.1 ≠ seed ∧ ∃ v, (r.1, v) ∈ cache ∧ r.2 = score v sv) ∧
    (calculate_similarity score cache seed lim).Pairwise (fun u v => v.2 ≤ u.2) := by
  have hcs : calculate_similarity score cache seed lim =
      (sortDesc (othersScored score sv seed cache)).take lim := by
    simp [calculate_similarity, h]
  refine ⟨?_, ?_, ?_⟩
  · rw [hcs]
    exact List.length_take_le lim (sortDesc (othersScored score sv seed cache))
  · intro r hr
    rw [hcs] at hr
    exact mem_othersScored (mem_sortDesc.mp (List.mem_of_mem_take hr))
  · rw [hcs]
    exact List.Pairwise.sublist (List.take_sublist _ _) (sorted_sortDesc _)

/-- Witness for C6 at a concrete cache and score function. -/
theorem calculate_similarity_contract_witness :
    (calculate_similarity (fun v _ => v.headD 0)
        [("s", [1]), ("a", [2]), ("b", [3])] "s" 2).length ≤ 2 ∧
    (∀ r ∈ calculate_similarity (fun v _ => v.headD 0)
        [("s", [1]), ("a", [2]), ("b", [3])] "s" 2,
      r.1 ≠ "s" ∧ ∃ v, (r.1, v) ∈ [("s", [1]), ("a", [2]), ("b", [3])] ∧
        r.2 = (fun v _ => v.headD 0) v [1]) ∧
    (calculate_similarity (fun v _ => v.headD 0)
        [("s", [1]), ("a", [2]), ("b", [3])] "s" 2).Pairwise (fun u v => v.2 ≤ u.2) :=
  calculate_similarity_contract (fun v _ => v.headD 0)
    [("s", [1]), ("a", [2]), ("b", [3])] "s" 2 [1] rfl

/-- C7: an absent seed vector makes calculate_similarity return the empty
result rather than raise; the definition reads only the vector cache —
neither the model state nor the encoder appears in it. -/
theorem calculate_similarity_unknown_seed (score : List ℚ → List ℚ → ℚ)
    (cache : List (String × List ℚ)) (seed : String) (lim : Nat)
    (h : lookup cache seed = none) :
    calculate_similarity score cache seed lim = [] := by
  simp [calculate_similarity, h]

/-- Witness for C7 at a concrete cache. -/
theorem calculate_similarity_unknown_seed_witness :
    calculate_similarity (fun _ _ => 0) [("A", [1])] "B" 20 = [] :=
  calculate_similarity_unknown_seed (fun _ _ => 0) [("A", [1])] "B" 20 rfl

/-- C1 counterexample: with identifier A cached and B missing, a forward
pass failure makes the whole get_embeddings call raise — the cached entry
for A is not returned to the caller, contrary to the claimed
partial-failure semantics. -/
theorem embeddings_failure_loses_cached :
    lookup [("A", [(1 : ℚ), 0])] "A" = some [(1 : ℚ), 0] ∧
    lookup [("A", [(1 : ℚ), 0])] "B" = none ∧
    get_embeddings ⟨false, true⟩ (fun _ => []) ⟨true, [("A", [(1 : ℚ), 0])], 0⟩
      [⟨"A", "tA", "aA"⟩, ⟨"B", "tB", "aB"⟩] = .error .encodeError :=
  ⟨rfl, rfl, rfl⟩

/-- C1 (amended): when some requested identifier is missing from the
cache and the encoder invocation fails — the model load when not yet
loaded, or the forward pass when loaded — get_embeddings raises and the
entire call fails: no partial mapping (in particular no already-cached
entry) is returned to the caller. -/
theorem embeddings_failure_aborts_call (env : Env) (encode : String → List ℚ)
    (s : EngineState) (papers : List EPaper) (p : EPaper)
    (hp : p ∈ papers) (hmiss : lookup s.cache p.id = none)
    (hfail : (s.is_loaded = false ∧ env.load_fails = true) ∨
             (s.is_loaded = true ∧ env.encode_fails = true)) :
    ∃ e, get_embeddings env encode s papers = .error e := by
  rcases hfail with ⟨hl, hf⟩ | ⟨hl, hf⟩
  · exact ⟨.loadError, by simp [get_embeddings, load_model, hl, hf]⟩
  · refine ⟨.encodeError, ?_⟩
    have hload : load_model env s = .ok s := load_model_of_loaded hl
    have hne : papers.isEmpty = false := by
      cases papers
      · cases hp
      · rfl
    have hcf : lookup (cachedFor papers s.cache) p.id = none := by
      rw [lookup_cachedFor hp]
      exact hmiss
    have hmne : (missingOf (cachedFor papers s.cache) papers).isEmpty = false :=
      missingOf_ne_nil hp (by simp [hcf])
    simp [get_embeddings, hload, hne, hmne, hf]

/-- Witness for C1 (amended) at a concrete loaded engine whose forward
pass fails. -/
theorem embeddings_failure_aborts_call_witness :
    ∃ e, get_embeddings ⟨false, true⟩ (fun _ => []) ⟨true, [], 0⟩
      [⟨"B", "", ""⟩] = .error e :=
  embeddings_failure_aborts_call ⟨false, true⟩ (fun _ => []) ⟨true, [], 0⟩
    [⟨"B", "", ""⟩] ⟨"B", "", ""⟩ (by simp) rfl (Or.inr ⟨rfl, rfl⟩)

/-- C8: after a successful get_embeddings([d]), the vector of d sits in
the persistent cache; a second get_embeddings([d]) succeeds, returns that
exact stored vector (also equal to the first call's returned vector), and
leaves the engine state — including the forward-pass counter — unchanged:
a pure cache hit with no recomputation. -/
theorem embeddings_cache_hit (env₁ env₂ : Env) (enc₁ enc₂ : String → List ℚ)
    (s s₁ : EngineState) (d : EPaper) (r₁ : List (String × List ℚ))
    (h : get_embeddings env₁ enc₁ s [d] = .ok (s₁, r₁)) :
    ∃ v r₂, lookup s₁.cache d.id = some v ∧ lookup r₁ d.id = some v ∧
      get_embeddings env₂ enc₂ s₁ [d] = .ok (s₁, r₂) ∧ lookup r₂ d.id = some v := by
  unfold get_embeddings at h
  cases hl : load_model env₁ s with
  | error e =>
    rw [hl] at h
    exact absurd h (by simp)
  | ok sL =>
    rw [hl] at h
    have hloaded : sL.is_loaded = true := load_model_ok_loaded hl
    simp only [List.isEmpty_cons, Bool.false_eq_true, if_false] at h
    by_cases hm : (lookup (cachedFor [d] sL.cache) d.id).isNone = true
    · -- d was missing: the first call encoded and cached it
      have hmiss : missingOf (cachedFor [d] sL.cache) [d] = [d] := by
        simp [missingOf, hm]
      rw [hmiss] at h
      simp only [List.isEmpty_cons, Bool.false_eq_true, if_false] at h
      cases hef : env₁.encode_fails with
      | true =>
        rw [hef] at h
        exact absurd h (by simp)
      | false =>
        rw [hef] at h
        simp only [Bool.false_eq_true, if_false, List.map_cons, List.map_nil,
          List.foldl_cons, List.foldl_nil, Except.ok.injEq, Prod.mk.injEq] at h
        obtain ⟨hs₁, hr₁⟩ := h
        refine ⟨enc₁ (textOf d), cachedFor [d] s₁.cache, ?_, ?_, ?_, ?_⟩
        · rw [← hs₁]
          exact lookup_insertOrReplace_self sL.cache d.id (enc₁ (textOf d))
        · rw [← hr₁]
          exact lookup_insertOrReplace_self (cachedFor [d] sL.cache) d.id (enc₁ (textOf d))
        · refine get_embeddings_all_cached env₂ enc₂ s₁ d (enc₁ (textOf d)) ?_ ?_
          · rw [← hs₁]
            exact hloaded
          · rw [← hs₁]
            exact lookup_insertOrReplace_self sL.cache d.id (enc₁ (textOf d))
        · rw [lookup_cachedFor (List.mem_singleton_self d)]
          rw [← hs₁]
          exact lookup_insertOrReplace_self sL.cache d.id (enc₁ (textOf d))
    · -- d was already cached: the first call read it from the cache
      have hmiss : missingOf (cachedFor [d] sL.cache) [d] = [] := by
        simp only [missingOf]
        rw [if_neg hm]
      rw [hmiss] at h
      simp only [List.isEmpty_nil, if_true, Except.ok.injEq, Prod.mk.injEq] at h
      obtain ⟨hs₁, hr₁⟩ := h
      obtain ⟨v, hv⟩ : ∃ v, lookup (cachedFor [d] sL.cache) d.id = some v := by
        cases hv0 : lookup (cachedFor [d] sL.cache) d.id with
        | none => exact absurd (by simp [hv0]) hm
        | some v => exact ⟨v, rfl⟩
      have hvc : lookup sL.cache d.id = some v := by
        rw [← lookup_cachedFor (List.mem_singleton_self d)]
        exact hv
      refine ⟨v, cachedFor [d] s₁.cache, ?_, ?_, ?_, ?_⟩
      · rw [← hs₁]
        exact hvc
      · rw [← hr₁]
        exact hv
      · refine get_embeddings_all_cached env₂ enc₂ s₁ d v ?_ ?_
        · rw [← hs₁]
          exact hloaded
        · rw [← hs₁]
          exact hvc
      · rw [lookup_cachedFor (List.mem_singleton_self d)]
        rw [← hs₁]
        exact hvc

/-- Witness for C8: a first call on an empty cache encodes and stores the
vector; the theorem then yields the cache-hit behaviour of the second
call. -/
theorem embeddings_cache_hit_witness :
    ∃ v r₂,
      lookup [("D", [(1 : ℚ)])] "D" = some v ∧
      lookup [("D", [(1 : ℚ)])] "D" = some v ∧
      get_embeddings ⟨false, false⟩ (fun _ => [1]) ⟨true, [("D", [(1 : ℚ)])], 1⟩
        [⟨"D", "t", "a"⟩] = .ok (⟨true, [("D", [(1 : ℚ)])], 1⟩, r₂) ∧
      lookup r₂ "D" = some v :=
  embeddings_cache_hit ⟨false, false⟩ ⟨false, false⟩ (fun _ => [1]) (fun _ => [1])
    ⟨false, [], 0⟩ ⟨true, [("D", [(1 : ℚ)])], 1⟩ ⟨"D", "t", "a"⟩ [("D", [(1 : ℚ)])] rfl

/-! ### Graph-expansion lemmas -/

theorem findRow_eq_id : ∀ {l : List WorksRow} {pid : String} {w : WorksRow},
    findRow l pid = some w → w.id = pid
  | [], _, _, h => by simp [findRow] at h
  | x :: t, pid, w, h => by
    by_cases hx : x.id = pid
    · simp only [findRow] at h
      rw [if_pos hx, Option.some.injEq] at h
      subst h
      exact hx
    · simp only [findRow] at h
      rw [if_neg hx] at h
      exact findRow_eq_id h

theorem refsRows_self (db : DB) (pid : String) :
    ∀ r ∈ refsRows db pid, findWork db r.id = some r := by
  intro r hr
  rcases List.mem_filterMap.mp (List.mem_of_mem_take hr) with ⟨c, _, hfc⟩
  have hid : r.id = c.2 := findRow_eq_id hfc
  rw [show findWork db r.id = findWork db c.2 by rw [hid]]
  exact hfc

theorem citedRows_self (db : DB) (pid : String) :
    ∀ r ∈ citedRows db pid, findWork db r.id = some r := by
  intro r hr
  rcases List.mem_filterMap.mp (List.mem_of_mem_take hr) with ⟨c, _, hfc⟩
  have hid : r.id = c.1 := findRow_eq_id hfc
  rw [show findWork db r.id = findWork db c.1 by rw [hid]]
  exact hfc

theorem lookup_addNode_mono {ns : List (String × Node)} {k : String} {n : Node}
    {k' : String} (h : (lookup ns k').isSome = true) :
    (lookup (addNode ns k n) k').isSome = true := by
  unfold addNode
  by_cases hx : (lookup ns k).isSome = true
  · rw [if_pos hx]
    exact h
  · rw [if_neg hx]
    exact lookup_isSome_append _ h

theorem lookup_addNode_self (ns : List (String × Node)) (k : String) (n : Node) :
    (lookup (addNode ns k n) k).isSome = true := by
  unfold addNode
  by_cases hx : (lookup ns k).isSome = true
  · rw [if_pos hx]
    exact hx
  · rw [if_neg hx]
    exact lookup_append_single_self ns k n

theorem mem_addNode {kn : String × Node} {ns : List (String × Node)} {k : String}
    {n : Node} (h : kn ∈ addNode ns k n) : kn ∈ ns ∨ kn = (k, n) := by
  unfold addNode at h
  by_cases hx : (lookup ns k).isSome = true
  · rw [if_pos hx] at h
    exact Or.inl h
  · rw [if_neg hx] at h
    rcases List.mem_append.mp h with h' | h'
    · exact Or.inl h'
    · exact Or.inr (by simpa using h')

theorem goodState_refsStep (db : DB) (pid : String)
    (st : List (String × Node) × List GEdge) (r : WorksRow)
    (hr : findWork db r.id = some r) (h : GoodState db pid st) :
    GoodState db pid (refsStep pid st r) := by
  obtain ⟨hA, hB, hC⟩ := h
  refine ⟨lookup_addNode_mono hA, ?_, ?_⟩
  · intro kn hkn
    rcases mem_addNode hkn with hkn' | hkn'
    · exact hB kn hkn'
    · subst hkn'
      exact ⟨rfl, by rw [hr]; rfl⟩
  · intro ed hed
    rcases List.mem_append.mp hed with hed' | hed'
    · obtain ⟨h1, h2⟩ := hC ed hed'
      exact ⟨lookup_addNode_mono h1, lookup_addNode_mono h2⟩
    · have hed'' : ed = ⟨pid, r.id, none⟩ := by simpa using hed'
      subst hed''
      exact ⟨lookup_addNode_mono hA, lookup_addNode_self st.1 r.id (nodeOf r)⟩

theorem goodState_citedStep (db : DB) (pid : String)
    (st : List (String × Node) × List GEdge) (r : WorksRow)
    (hr : findWork db r.id = some r) (h : GoodState db pid st) :
    GoodState db pid (citedStep pid st r) := by
  obtain ⟨hA, hB, hC⟩ := h
  refine ⟨lookup_addNode_mono hA, ?_, ?_⟩
  · intro kn hkn
    rcases mem_addNode hkn with hkn' | hkn'
    · exact hB kn hkn'
    · subst hkn'
      exact ⟨rfl, by rw [hr]; rfl⟩
  · intro ed hed
    rcases List.mem_append.mp hed with hed' | hed'
    · obtain ⟨h1, h2⟩ := hC ed hed'
      exact ⟨lookup_addNode_mono h1, lookup_addNode_mono h2⟩
    · have hed'' : ed = ⟨r.id, pid, none⟩ := by simpa using hed'
      subst hed''
      exact ⟨lookup_addNode_self st.1 r.id (nodeOf r), lookup_addNode_mono hA⟩

theorem goodState_simStep (db : DB) (pid : String)
    (st : List (String × Node) × List GEdge) (sim : String × ℚ)
    (h : GoodState db pid st) : GoodState db pid (simStep db pid st sim) := by
  obtain ⟨hA, hB, hC⟩ := h
  unfold simStep
  by_cases hx : (lookup st.1 sim.1).isSome = true
  · rw [if_pos hx]
    exact ⟨hA, hB, hC⟩
  · rw [if_neg hx]
    cases hf : findWork db sim.1 with
    | none => exact ⟨hA, hB, hC⟩
    | some r =>
      refine ⟨lookup_isSome_append _ hA, ?_, ?_⟩
      · intro kn hkn
        rcases List.mem_append.mp hkn with hkn' | hkn'
        · exact hB kn hkn'
        · have hkn'' : kn = (sim.1, nodeOf r) := by simpa using hkn'
          subst hkn''
          refine ⟨findRow_eq_id hf, ?_⟩
          rw [show findWork db sim.1 = some r from hf]
          rfl
      · intro ed hed
        rcases List.mem_append.mp hed with hed' | hed'
        · obtain ⟨h1, h2⟩ := hC ed hed'
          exact ⟨lookup_isSome_append _ h1, lookup_isSome_append _ h2⟩
        · have hed'' : ed = ⟨pid, sim.1, some "similarity"⟩ := by simpa using hed'
          subst hed''
          exact ⟨lookup_isSome_append _ hA, lookup_append_single_self st.1 sim.1 (nodeOf r)⟩

theorem goodState_citationPart (db : DB) (pid : String) (w : WorksRow)
    (hw : findWork db pid = some w) : GoodState db pid (citationPart db pid w) := by
  have h0 : GoodState db pid ([(pid, nodeOf w)], ([] : List GEdge)) := by
    refine ⟨by simp [lookup], ?_, ?_⟩
    · intro kn hkn
      have hkn' : kn = (pid, nodeOf w) := by simpa using hkn
      subst hkn'
      exact ⟨findRow_eq_id hw, by rw [hw]; rfl⟩
    · intro ed hed
      simp at hed
  unfold citationPart
  exact foldl_pres_mem _ (citedStep pid) _
    (fun st a ha h => goodState_citedStep db pid st a (citedRows_self db pid a ha) h) _
    (foldl_pres_mem _ (refsStep pid) _
      (fun st a ha h => goodState_refsStep db pid st a (refsRows_self db pid a ha) h) _ h0)

theorem goodState_no_phantom {db : DB} {pid : String}
    {st : List (String × Node) × List GEdge} {q : String}
    (h : GoodState db pid st) (hq : findWork db q = none) :
    (∀ n ∈ st.1.map (fun kn => kn.2), n.id ≠ q) ∧
    (∀ ed ∈ st.2, ed.source ≠ q ∧ ed.target ≠ q) := by
  obtain ⟨hA, hB, hC⟩ := h
  have hkey : ∀ k, (lookup st.1 k).isSome = true → k ≠ q := by
    intro k hk hkq
    subst hkq
    rcases Option.isSome_iff_exists.mp hk with ⟨n, hn⟩
    have hrow := (hB (k, n) (lookup_mem hn)).2
    rw [hq] at hrow
    exact absurd hrow (by simp)
  constructor
  · intro n hn
    rcases List.mem_map.mp hn with ⟨kn, hkn, rfl⟩
    obtain ⟨hid, hrow⟩ := hB kn hkn
    rw [hid]
    intro hq'
    rw [hq'] at hrow
    rw [hq] at hrow
    exact absurd hrow (by simp)
  · intro ed hed
    obtain ⟨h1, h2⟩ := hC ed hed
    exact ⟨hkey _ h1, hkey _ h2⟩

theorem edges_none_refsStep (pid : String) (st : List (String × Node) × List GEdge)
    (r : WorksRow) (h : ∀ ed ∈ st.2, ed.type = none) :
    ∀ ed ∈ (refsStep pid st r).2, ed.type = none := by
  intro ed hed
  rcases List.mem_append.mp hed with hed' | hed'
  · exact h ed hed'
  · have hed'' : ed = ⟨pid, r.id, none⟩ := by simpa using hed'
    subst hed''
    rfl

theorem edges_none_citedStep (pid : String) (st : List (String × Node) × List GEdge)
    (r : WorksRow) (h : ∀ ed ∈ st.2, ed.type = none) :
    ∀ ed ∈ (citedStep pid st r).2, ed.type = none := by
  intro ed hed
  rcases List.mem_append.mp hed with hed' | hed'
  · exact h ed hed'
  · have hed'' : ed = ⟨r.id, pid, none⟩ := by simpa using hed'
    subst hed''
    rfl

theorem citationPart_types (db : DB) (pid : String) (w : WorksRow) :
    ∀ ed ∈ (citationPart db pid w).2, ed.type = none := by
  unfold citationPart
  exact foldl_pres_mem _ (citedStep pid) _
    (fun st a _ h => edges_none_citedStep pid st a h) _
    (foldl_pres_mem _ (refsStep pid) _
      (fun st a _ h => edges_none_refsStep pid st a h) _ (by intro ed hed; simp at hed))

theorem simFold_edges (db : DB) (pid : String) :
    ∀ (sims : List (String × ℚ)) (st : List (String × Node) × List GEdge),
      ∃ extra, (sims.foldl (simStep db pid) st).2 = st.2 ++ extra ∧
        ∀ ed ∈ extra, ed.type = some "similarity" ∧ lookup st.1 ed.target = none
  | [], st => ⟨[], by simp, by simp⟩
  | sim :: rest, st => by
    simp only [List.foldl_cons]
    by_cases hx : (lookup st.1 sim.1).isSome = true
    · have hstep : simStep db pid st sim = st := by
        unfold simStep
        rw [if_pos hx]
      rw [hstep]
      exact simFold_edges db pid rest st
    · cases hf : findWork db sim.1 with
      | none =>
        have hstep : simStep db pid st sim = st := by
          unfold simStep
          rw [if_neg hx, hf]
        rw [hstep]
        exact simFold_edges db pid rest st
      | some r =>
        have hstep : simStep db pid st sim =
            (st.1 ++ [(sim.1, nodeOf r)], st.2 ++ [⟨pid, sim.1, some "similarity"⟩]) := by
          unfold simStep
          rw [if_neg hx, hf]
        rw [hstep]
        rcases simFold_edges db pid rest
            (st.1 ++ [(sim.1, nodeOf r)], st.2 ++ [⟨pid, sim.1, some "similarity"⟩]) with
          ⟨extra, hex, hprop⟩
        refine ⟨⟨pid, sim.1, some "similarity"⟩ :: extra, ?_, ?_⟩
        · rw [hex]
          simp
        · intro ed hed
          rcases List.mem_cons.mp hed with rfl | hed'
          · refine ⟨rfl, ?_⟩
            cases hv : lookup st.1 sim.1 with
            | none => rfl
            | some v => exact absurd (by simp [hv]) hx
          · obtain ⟨ht, hl⟩ := hprop ed hed'
            exact ⟨ht, lookup_append_none_left hl⟩

/-! ### Claims C5, C3, C10 -/

/-- C5: when the focal paper exists and the semantic subsystem raises
during expand, expand_graph still returns a non-error result consisting
exactly of the citation-derived nodes and edges, all of them plain
citation edges. -/
theorem expand_citation_only_on_semantic_failure (env : Env)
    (encode : String → List ℚ) (score : List ℚ → List ℚ → ℚ) (s : EngineState)
    (db : DB) (pid : String) (w : WorksRow) (e : EngErr)
    (hw : findWork db pid = some w)
    (hsem : get_embeddings env encode s [centralEPaper w] = .error e) :
    expand_graph env encode score s db pid =
      .ok ((citationPart db pid w).1.map (fun kn => kn.2), (citationPart db pid w).2) ∧
    ∀ ed ∈ (citationPart db pid w).2, ed.type = none := by
  constructor
  · unfold expand_graph
    simp only [hw, hsem]
  · exact citationPart_types db pid w

/-- Witness for C5: a store with one paper and an engine whose model load
fails. -/
theorem expand_citation_only_on_semantic_failure_witness :
    expand_graph ⟨true, false⟩ (fun _ => []) (fun _ _ => 0) ⟨false, [], 0⟩
        ⟨[⟨"W1", none, some "T", none, none, none, none, none⟩], []⟩ "W1" =
      .ok ((citationPart ⟨[⟨"W1", none, some "T", none, none, none, none, none⟩], []⟩
            "W1" ⟨"W1", none, some "T", none, none, none, none, none⟩).1.map
            (fun kn => kn.2),
          (citationPart ⟨[⟨"W1", none, some "T", none, none, none, none, none⟩], []⟩
            "W1" ⟨"W1", none, some "T", none, none, none, none, none⟩).2) ∧
    ∀ ed ∈ (citationPart ⟨[⟨"W1", none, some "T", none, none, none, none, none⟩], []⟩
        "W1" ⟨"W1", none, some "T", none, none, none, none, none⟩).2, ed.type = none :=
  expand_citation_only_on_semantic_failure ⟨true, false⟩ (fun _ => []) (fun _ _ => 0)
    ⟨false, [], 0⟩ ⟨[⟨"W1", none, some "T", none, none, none, none, none⟩], []⟩ "W1"
    ⟨"W1", none, some "T", none, none, none, none, none⟩ .loadError rfl rfl

/-- C3 counterexample: W1 cites W2 and the similarity query returns W2,
yet the returned edge set holds only the citation edge — the
similarity-tagged edge between the pair is absent, because the similarity
branch adds its edge only for identifiers not already in the node set. -/
theorem similarity_edge_suppressed_for_cited_pair :
    ("W2", (1 : ℚ)) ∈ calculate_similarity (fun _ _ => 1)
        [("W1", [(1 : ℚ)]), ("W2", [(1 : ℚ)])] "W1" 5 ∧
    ("W1", "W2") ∈ (DB.mk [⟨"W1", none, some "T1", none, none, none, none, none⟩,
        ⟨"W2", none, some "T2", none, none, none, none, none⟩]
        [("W1", "W2")]).citations ∧
    expand_graph ⟨false, false⟩ (fun _ => []) (fun _ _ => 1)
        ⟨true, [("W1", [(1 : ℚ)]), ("W2", [(1 : ℚ)])], 0⟩
        ⟨[⟨"W1", none, some "T1", none, none, none, none, none⟩,
          ⟨"W2", none, some "T2", none, none, none, none, none⟩],
         [("W1", "W2")]⟩ "W1" =
      .ok ([nodeOf ⟨"W1", none, some "T1", none, none, none, none, none⟩,
            nodeOf ⟨"W2", none, some "T2", none, none, none, none, none⟩],
           [⟨"W1", "W2", none⟩]) ∧
    (⟨"W1", "W2", some "similarity"⟩ : GEdge) ∉ [(⟨"W1", "W2", none⟩ : GEdge)] :=
  ⟨by decide, by decide, rfl, by decide⟩

/-- C3 (amended): for a successful expand the returned edge set is the
citation-derived edges followed by similarity-tagged edges, and every
similarity-tagged edge targets an identifier that was not already a node
of the citation-derived part — so for a pair connected both by a stored
citation edge and by a similarity result, only the citation edge appears,
the similarity edge is suppressed. -/
theorem similarity_edges_only_new_nodes (env : Env) (encode : String → List ℚ)
    (score : List ℚ → List ℚ → ℚ) (s : EngineState) (db : DB) (pid : String)
    (w : WorksRow) (hw : findWork db pid = some w) :
    ∃ ns es extra,
      expand_graph env encode score s db pid = .ok (ns, es) ∧
      es = (citationPart db pid w).2 ++ extra ∧
      (∀ ed ∈ extra, ed.type = some "similarity" ∧
        lookup (citationPart db pid w).1 ed.target = none) ∧
      (∀ ed ∈ (citationPart db pid w).2, ed.type = none) := by
  cases hsem : get_embeddings env encode s [centralEPaper w] with
  | error e =>
    refine ⟨(citationPart db pid w).1.map (fun kn => kn.2), (citationPart db pid w).2,
      [], ?_, by simp, by simp, citationPart_types db pid w⟩
    unfold expand_graph
    simp only [hw, hsem]
  | ok p =>
    obtain ⟨s', rr⟩ := p
    rcases simFold_edges db pid (calculate_similarity score s'.cache pid 5)
        (citationPart db pid w) with ⟨extra, hex, hprop⟩
    refine ⟨((calculate_similarity score s'.cache pid 5).foldl (simStep db pid)
        (citationPart db pid w)).1.map (fun kn => kn.2),
      ((calculate_similarity score s'.cache pid 5).foldl (simStep db pid)
        (citationPart db pid w)).2,
      extra, ?_, hex, hprop, citationPart_types db pid w⟩
    unfold expand_graph
    simp only [hw, hsem]

/-- Witness for C3 (amended): a store where the similar paper W3 is not
cited, so expand succeeds and adds the similarity edge. -/
theorem similarity_edges_only_new_nodes_witness :
    ∃ ns es extra,
      expand_graph ⟨false, false⟩ (fun _ => []) (fun _ _ => 1)
          ⟨true, [("W1", [(1 : ℚ)]), ("W3", [(1 : ℚ)])], 0⟩
          ⟨[⟨"W1", none, some "T1", none, none, none, none, none⟩,
            ⟨"W3", none, some "T3", none, none, none, none, none⟩], []⟩ "W1" =
        .ok (ns, es) ∧
      es = (citationPart ⟨[⟨"W1", none, some "T1", none, none, none, none, none⟩,
            ⟨"W3", none, some "T3", none, none, none, none, none⟩], []⟩ "W1"
            ⟨"W1", none, some "T1", none, none, none, none, none⟩).2 ++ extra ∧
      (∀ ed ∈ extra, ed.type = some "similarity" ∧
        lookup (citationPart ⟨[⟨"W1", none, some "T1", none, none, none, none, none⟩,
            ⟨"W3", none, some "T3", none, none, none, none, none⟩], []⟩ "W1"
            ⟨"W1", none, some "T1", none, none, none, none, none⟩).1 ed.target = none) ∧
      (∀ ed ∈ (citationPart ⟨[⟨"W1", none, some "T1", none, none, none, none, none⟩,
            ⟨"W3", none, some "T3", none, none, none, none, none⟩], []⟩ "W1"
            ⟨"W1", none, some "T1", none, none, none, none, none⟩).2, ed.type = none) :=
  similarity_edges_only_new_nodes ⟨false, false⟩ (fun _ => []) (fun _ _ => 1)
    ⟨true, [("W1", [(1 : ℚ)]), ("W3", [(1 : ℚ)])], 0⟩
    ⟨[⟨"W1", none, some "T1", none, none, none, none, none⟩,
      ⟨"W3", none, some "T3", none, none, none, none, none⟩], []⟩ "W1"
    ⟨"W1", none, some "T1", none, none, none, none, none⟩ rfl

/-- C10: in a successful expand, a similarity-query result whose
identifier has no row in the works table contributes neither a node nor
an edge to the returned graph: no node carries that id and no edge is
incident to it, and the call does not error because of it. -/
theorem unknown_similarity_ids_dropped (env : Env) (encode : String → List ℚ)
    (score : List ℚ → List ℚ → ℚ) (s : EngineState) (db : DB) (pid : String)
    (w : WorksRow) (hw : findWork db pid = some w) :
    ∃ ns es, expand_graph env encode score s db pid = .ok (ns, es) ∧
      ∀ q ∈ simIdsOf env encode score s pid w, findWork db q = none →
        (∀ n ∈ ns, n.id ≠ q) ∧ (∀ ed ∈ es, ed.source ≠ q ∧ ed.target ≠ q) := by
  cases hsem : get_embeddings env encode s [centralEPaper w] with
  | error e =>
    refine ⟨(citationPart db pid w).1.map (fun kn => kn.2),
      (citationPart db pid w).2, ?_, ?_⟩
    · unfold expand_graph
      simp only [hw, hsem]
    · intro q hq
      unfold simIdsOf at hq
      rw [hsem] at hq
      simp at hq
  | ok p =>
    obtain ⟨s', rr⟩ := p
    have hgs : GoodState db pid
        ((calculate_similarity score s'.cache pid 5).foldl (simStep db pid)
          (citationPart db pid w)) :=
      foldl_pres_mem _ (simStep db pid) _
        (fun st a _ h => goodState_simStep db pid st a h) _
        (goodState_citationPart db pid w hw)
    refine ⟨((calculate_similarity score s'.cache pid 5).foldl (simStep db pid)
        (citationPart db pid w)).1.map (fun kn => kn.2),
      ((calculate_similarity score s'.cache pid 5).foldl (simStep db pid)
        (citationPart db pid w)).2, ?_, ?_⟩
    · unfold expand_graph
      simp only [hw, hsem]
    · intro q _ hqnone
      exact goodState_no_phantom hgs hqnone

/-- Witness for C10: the cache holds a vector for X, which has no works
row; expand succeeds and X appears nowhere in the result. -/
theorem unknown_similarity_ids_dropped_witness :
    ∃ ns es, expand_graph ⟨false, false⟩ (fun _ => []) (fun _ _ => 1)
        ⟨true, [("W1", [(1 : ℚ)]), ("X", [(1 : ℚ)])], 0⟩
        ⟨[⟨"W1", none, some "T1", none, none, none, none, none⟩], []⟩ "W1" =
      .ok (ns, es) ∧
      ∀ q ∈ simIdsOf ⟨false, false⟩ (fun _ => []) (fun _ _ => 1)
          ⟨true, [("W1", [(1 : ℚ)]), ("X", [(1 : ℚ)])], 0⟩ "W1"
          ⟨"W1", none, some "T1", none, none, none, none, none⟩,
        findWork ⟨[⟨"W1", none, some "T1", none, none, none, none, none⟩], []⟩ q = none →
          (∀ n ∈ ns, n.id ≠ q) ∧ (∀ ed ∈ es, ed.source ≠ q ∧ ed.target ≠ q) :=
  unknown_similarity_ids_dropped ⟨false, false⟩ (fun _ => []) (fun _ _ => 1)
    ⟨true, [("W1", [(1 : ℚ)]), ("X", [(1 : ℚ)])], 0⟩
    ⟨[⟨"W1", none, some "T1", none, none, none, none, none⟩], []⟩ "W1"
    ⟨"W1", none, some "T1", none, none, none, none, none⟩ rfl

end Bibliomania
